import Mathlib

/-!
Verification of the fdmom package: a readiness watch over file descriptors
with two backends, one built on epoll(7) (Linux) and one on kqueue(2) (BSD).

The Go code is embedded shallowly. Machine integers are modelled as `Int`
(Go `int`/`int64`), `Nat` (Go `uint64`/`uint16`) with the reinterpreting
conversions spelled out as explicit modular arithmetic. The native wait
syscalls (`epoll_wait(2)`, `kevent(2)`) are modelled by an oracle: a list
of per-call outcomes (either a batch of returned events or an errno), which
the retry loop of `AwaitFDWithRead` consumes. Registration syscalls
(`epoll_ctl(2)`, the `kevent(2)` changelist form) are modelled by passing
the syscall's error result as an argument.
-/

namespace Fdmom

/-- Two to the 31st, 32nd, 63rd and 64th, the bounds of the Go machine
integer types involved. -/
def two31 : Int := 2147483648

def two32 : Int := 4294967296

def two63 : Int := 9223372036854775808

def two64 : Int := 18446744073709551616

/-- Go `int32(x)` applied to a Go `int` (64-bit): keep the low 32 bits and
reinterpret as signed. -/
def int32ofGoInt (x : Int) : Int :=
  if x % two32 < two31 then x % two32 else x % two32 - two32

/-- Go `int(x)` applied to an `int32`: sign extension, which preserves the
integer value. -/
def goIntOfInt32 (x : Int) : Int := x

/-- Go `uint64(uint(x))` applied to a Go `int` (64-bit): reinterpret the
two's-complement bits as unsigned. -/
def uintOfGoInt (x : Int) : Nat := (x % two64).toNat

/-- Go `int(x)` applied to a `uint64`: reinterpret the bits as signed. -/
def goIntOfUint64 (x : Nat) : Int :=
  if (x : Int) < two63 then (x : Int) else (x : Int) - two64

/-- Go addition of two 64-bit signed integers: two's-complement
wrap-around. Subtraction of `c` is addition of `-c`. -/
def addInt64 (x y : Int) : Int :=
  (x + y + two63) % two64 - two63

/-- OS error numbers, as the small integer codes shared by Linux and the
BSDs for the errnos this package inspects. -/
abbrev Errno := Nat

def EPERM : Errno := 1

def ENOENT : Errno := 2

def EINTR : Errno := 4

def EBADF : Errno := 9

def EEXIST : Errno := 17

/-- The errors `AwaitFDWithRead` can return: the sentinel `ErrTimeout`
(fdmom.go), the sentinel `ErrClosed` (declared outside the two backend
files, used by the kqueue backend), and the generic wrapped wait error
produced with `fmt.Errorf`, carrying the underlying errno. -/
inductive AwaitError where
  | errTimeout
  | errClosed
  | waitError (e : Errno)
deriving DecidableEq

/-- The value of Go's `(fd int, err error)` return pair of
`AwaitFDWithRead`: either a descriptor or an error. -/
abbrev AwaitResult := Except AwaitError Int

/-- The outcomes of `IncludeFD`/`ExcludeFD`: success, the sentinel
`ErrClosed`, the sentinel `ErrWatchable` (epoll backend), a wrapped
syscall errno, or (kqueue backend) a wrapped errno taken from an
`EV_ERROR` receipt event's `Data` field. -/
inductive RegResult where
  | ok
  | errClosed
  | errWatchable
  | syscallError (e : Errno)
  | receiptError (e : Errno)
deriving DecidableEq

/-! ## The epoll(7) backend (Linux build of the package) -/

namespace Epoll

/-- `syscall.EpollEvent`, restricted to the fields the package touches:
`Fd int32` and `Events uint32`. -/
structure EpollEvent where
  fd : Int
  events : Nat
deriving DecidableEq

def EPOLLIN : Nat := 1

/-- Outcome of one native `epoll_wait(2)` call: either the returned batch
of events (the package passes a buffer of length one, so the list holds at
most one event) or an errno. -/
inductive WaitRes where
  | ok (events : List EpollEvent)
  | fail (e : Errno)
deriving DecidableEq

/-- The millisecond count `AwaitFDWithRead` hands to `epoll_wait(2)`:
`msec := int((timeout + time.Millisecond - 1) / time.Millisecond)`, with
Go's wrapping 64-bit addition and truncated integer division, overridden
to `-1` (indefinite) for negative timeouts. Timeouts are in nanoseconds
(Go `time.Duration`, an `int64`), so `timeout + time.Millisecond - 1`
wraps around for timeouts within a millisecond of the maximum
duration. -/
def msecOfTimeout (timeout : Int) : Int :=
  let msec := Int.tdiv (addInt64 (addInt64 timeout 1000000) (-1)) 1000000
  if timeout < 0 then -1 else msec

/-- The retry loop of the epoll `AwaitFDWithRead`, consuming one oracle
entry per native call: a clean return with zero events is `ErrTimeout`,
a clean return with events yields `int(buf[0].Fd)`, `EINTR` retries, and
any other errno is wrapped. `none` means the oracle ran out, i.e. the
loop would keep calling the kernel. -/
def awaitLoop : List WaitRes → Option AwaitResult
  | [] => none
  | WaitRes.ok [] :: _ => some (.error .errTimeout)
  | WaitRes.ok (ev :: _) :: _ => some (.ok (goIntOfInt32 ev.fd))
  | WaitRes.fail e :: rest =>
      if e = EINTR then awaitLoop rest
      else some (.error (.waitError e))

/-- The `syscall.EpollEvent` that `IncludeFD` registers:
`{Fd: int32(fd), Events: syscall.EPOLLIN}`. -/
def IncludeEvent (fd : Int) : EpollEvent :=
  { fd := int32ofGoInt fd, events := EPOLLIN }

/-- The error mapping of the epoll `IncludeFD`, given the result of
`epoll_ctl(EPOLL_CTL_ADD)`: `nil` and `EEXIST` are success, `EPERM` is
`ErrWatchable`, anything else is wrapped. -/
def IncludeFD (ctlErr : Option Errno) : RegResult :=
  match ctlErr with
  | none => .ok
  | some e =>
      if e = EEXIST then .ok
      else if e = EPERM then .errWatchable
      else .syscallError e

/-- The error mapping of the epoll `ExcludeFD`, given the result of
`epoll_ctl(EPOLL_CTL_DEL)`: `nil` and `ENOENT` are success, `EPERM` is
`ErrWatchable`, anything else is wrapped. -/
def ExcludeFD (ctlErr : Option Errno) : RegResult :=
  match ctlErr with
  | none => .ok
  | some e =>
      if e = ENOENT then .ok
      else if e = EPERM then .errWatchable
      else .syscallError e

end Epoll

/-! ## The kqueue(2) backend (BSD builds of the package) -/

namespace Kqueue

/-- `syscall.Kevent_t`, restricted to the fields the package touches:
`Ident uint64`, `Filter int16`, `Flags uint16`, `Data int64`. -/
structure Kevent where
  ident : Nat
  filter : Int
  flags : Nat
  data : Int
deriving DecidableEq

def EV_ADD : Nat := 1

def EV_DELETE : Nat := 2

def EV_ERROR : Nat := 16384

def EVFILT_READ : Int := -1

/-- `syscall.NsecToTimespec`: split nanoseconds into whole seconds
(truncated division) and a non-negative nanosecond remainder. -/
def NsecToTimespec (nsec : Int) : Int × Int :=
  let sec := Int.tdiv nsec 1000000000
  let ns := Int.tmod nsec 1000000000
  if ns < 0 then (sec - 1, ns + 1000000000) else (sec, ns)

/-- The `*syscall.Timespec` the kqueue `AwaitFDWithRead` hands to
`kevent(2)`: the converted timeout for `timeout >= 0`, and the nil
pointer (`none`, wait indefinitely) for negative timeouts. -/
def timespecArg (timeout : Int) : Option (Int × Int) :=
  if timeout ≥ 0 then some (NsecToTimespec timeout) else none

/-- Outcome of one native `kevent(2)` wait call: either the returned batch
of events (the package passes a buffer of length two, so the list holds at
most two events) or an errno. -/
inductive WaitRes where
  | ok (events : List Kevent)
  | fail (e : Errno)
deriving DecidableEq

/-- Go's `w.roundRobin++` on a 64-bit `int`: increment with
two's-complement wrap-around. -/
def wrapInc64 (x : Int) : Int :=
  (x + 1 + two63) % two64 - two63

/-- The retry loop and event selection of the kqueue `AwaitFDWithRead`,
consuming one oracle entry per native call and threading the `Watch`'s
`roundRobin` field. A clean return with zero events is `ErrTimeout`; with
one event it yields `int(buf[0].Ident)`; with two events it increments
`roundRobin` and yields `int(buf[w.roundRobin&1].Ident)`. `EBADF` is
`ErrClosed`, `EINTR` retries, any other errno is wrapped. `none` means
the oracle ran out, i.e. the loop would keep calling the kernel. -/
def awaitLoop (roundRobin : Int) : List WaitRes → Option (AwaitResult × Int)
  | [] => none
  | WaitRes.fail e :: rest =>
      if e = EBADF then some (.error .errClosed, roundRobin)
      else if e = EINTR then awaitLoop roundRobin rest
      else some (.error (.waitError e), roundRobin)
  | WaitRes.ok [] :: _ => some (.error .errTimeout, roundRobin)
  | WaitRes.ok [ev] :: _ => some (.ok (goIntOfUint64 ev.ident), roundRobin)
  | WaitRes.ok (ev0 :: ev1 :: _) :: _ =>
      let rr := wrapInc64 roundRobin
      some (.ok (goIntOfUint64 (if rr % 2 = 0 then ev0 else ev1).ident), rr)

/-- The changelist entry the kqueue `IncludeFD` registers:
`{Ident: uint64(uint(fd)), Flags: EV_ADD, Filter: EVFILT_READ}`. -/
def IncludeEvent (fd : Int) : Kevent :=
  { ident := uintOfGoInt fd, filter := EVFILT_READ, flags := EV_ADD, data := 0 }

/-- The changelist entry the kqueue `ExcludeFD` registers:
`{Ident: uint64(uint(fd)), Flags: EV_DELETE, Filter: EVFILT_READ}`. -/
def ExcludeEvent (fd : Int) : Kevent :=
  { ident := uintOfGoInt fd, filter := EVFILT_READ, flags := EV_DELETE, data := 0 }

/-- The receipt check of the kqueue `IncludeFD`: when the `kevent(2)` call
reported `n != 0` events and the receipt slot carries an `EV_ERROR` for
this descriptor, the errno in its `Data` field is wrapped and returned. -/
def includeReceipt (fd64 : Nat) (n : Int) (receipt : Kevent) : RegResult :=
  if n ≠ 0 ∧ receipt.ident = fd64 ∧ receipt.flags &&& EV_ERROR ≠ 0 then
    .receiptError (uintOfGoInt receipt.data)
  else .ok

/-- The receipt check of the kqueue `ExcludeFD`: like `includeReceipt`,
except that an `ENOENT` errno in the receipt's `Data` is ignored
silently. -/
def excludeReceipt (fd64 : Nat) (n : Int) (receipt : Kevent) : RegResult :=
  if n ≠ 0 ∧ receipt.ident = fd64 ∧ receipt.flags &&& EV_ERROR ≠ 0 then
    if uintOfGoInt receipt.data ≠ ENOENT then
      .receiptError (uintOfGoInt receipt.data)
    else .ok
  else .ok

/-- The error mapping of the kqueue `IncludeFD`, given the `kevent(2)`
error, its returned event count `n`, and the receipt slot `events[1]`:
a syscall error other than `EINTR` is returned (with `EBADF` mapped to
`ErrClosed`); otherwise the receipt is checked. -/
def IncludeFD (fd : Int) (err : Option Errno) (n : Int) (receipt : Kevent) :
    RegResult :=
  match err with
  | some e =>
      if e ≠ EINTR then
        if e = EBADF then .errClosed else .syscallError e
      else includeReceipt (uintOfGoInt fd) n receipt
  | none => includeReceipt (uintOfGoInt fd) n receipt

/-- The error mapping of the kqueue `ExcludeFD`, analogous to `IncludeFD`
but with the `ENOENT`-tolerant receipt check. -/
def ExcludeFD (fd : Int) (err : Option Errno) (n : Int) (receipt : Kevent) :
    RegResult :=
  match err with
  | some e =>
      if e ≠ EINTR then
        if e = EBADF then .errClosed else .syscallError e
      else excludeReceipt (uintOfGoInt fd) n receipt
  | none => excludeReceipt (uintOfGoInt fd) n receipt

end Kqueue

/-! ## Wall-clock accounting of the retry loops

The loop body of the epoll `AwaitFDWithRead` passes the same, original
`msec` value to every `epoll_wait(2)` call, and the loop body of the
kqueue `AwaitFDWithRead` passes the same, original `tsp` timespec pointer
to every `kevent(2)` call; each native call may consume up to the timeout
it was handed before returning (a timeout consumes all of it, a signal or
an event may arrive earlier). The timed oracles pair each native call's
outcome with the wall-clock time that call consumed. -/

namespace Epoll

/-- One native `epoll_wait(2)` call of the retry loop together with the
wall-clock milliseconds it consumed before returning. -/
structure TimedRes where
  res : WaitRes
  elapsedMs : Int
deriving DecidableEq

/-- A timed oracle is valid for a wait of `msec` milliseconds when every
native call consumes a non-negative amount of time and at most `msec`
(the kernel never overshoots the timeout it was handed). -/
def ValidTrace (msec : Int) (trace : List TimedRes) : Prop :=
  ∀ r ∈ trace, 0 ≤ r.elapsedMs ∧ r.elapsedMs ≤ msec

instance (msec : Int) (trace : List TimedRes) :
    Decidable (ValidTrace msec trace) := by
  unfold ValidTrace; infer_instance

/-- Total wall-clock time the retry loop consumes: the sum of the elapsed
times of the `EINTR`-interrupted calls plus that of the first call that
makes the loop return. -/
def elapsedUntilReturn : List TimedRes → Int
  | [] => 0
  | r :: rest =>
      match r.res with
      | WaitRes.fail e =>
          if e = EINTR then r.elapsedMs + elapsedUntilReturn rest
          else r.elapsedMs
      | WaitRes.ok _ => r.elapsedMs

/-- Number of `EINTR`-interrupted native calls the retry loop consumes
before the call that makes it return. -/
def eintrCount : List TimedRes → Nat
  | [] => 0
  | r :: rest =>
      match r.res with
      | WaitRes.fail e => if e = EINTR then 1 + eintrCount rest else 0
      | WaitRes.ok _ => 0

end Epoll

namespace Kqueue

/-- One native `kevent(2)` wait call of the retry loop together with the
wall-clock nanoseconds it consumed before returning. -/
structure TimedRes where
  res : WaitRes
  elapsedNs : Int
deriving DecidableEq

/-- A timed oracle is valid for a wait of `tns` nanoseconds (the relative
timeout the unchanged timespec pointer encodes) when every native call
consumes a non-negative amount of time and at most `tns` (the kernel
never overshoots the timeout it was handed). -/
def ValidTrace (tns : Int) (trace : List TimedRes) : Prop :=
  ∀ r ∈ trace, 0 ≤ r.elapsedNs ∧ r.elapsedNs ≤ tns

instance (tns : Int) (trace : List TimedRes) :
    Decidable (ValidTrace tns trace) := by
  unfold ValidTrace; infer_instance

/-- Total wall-clock time the kqueue retry loop consumes: the sum of the
elapsed times of the `EINTR`-interrupted calls plus that of the first
call that makes the loop return (an event batch, a timeout, `EBADF`, or
any other errno). -/
def elapsedUntilReturn : List TimedRes → Int
  | [] => 0
  | r :: rest =>
      match r.res with
      | WaitRes.fail e =>
          if e = EINTR then r.elapsedNs + elapsedUntilReturn rest
          else r.elapsedNs
      | WaitRes.ok _ => r.elapsedNs

/-- Number of `EINTR`-interrupted native calls the kqueue retry loop
consumes before the call that makes it return. -/
def eintrCount : List TimedRes → Nat
  | [] => 0
  | r :: rest =>
      match r.res with
      | WaitRes.fail e => if e = EINTR then 1 + eintrCount rest else 0
      | WaitRes.ok _ => 0

end Kqueue

/-! ## Membership model of the watch list

The registered set itself lives in the kernel. Modelled from the spec:
the Watch holds a membership relation to descriptors, `IncludeFD` adds the
descriptor to it and `ExcludeFD` removes it (de-registration also discards
pending events), and a wait call reports readiness only for currently
registered descriptors ("after successful exclusion, the descriptor must
never be returned by a subsequent wait call"). -/

/-- A membership operation on the watch list. -/
inductive Op where
  | includeFD (fd : Int)
  | excludeFD (fd : Int)
deriving DecidableEq

/-- The membership set after a sequence of include/exclude operations. -/
def runOps (s : Finset Int) : List Op → Finset Int
  | [] => s
  | Op.includeFD fd :: rest => runOps (insert fd s) rest
  | Op.excludeFD fd :: rest => runOps (s.erase fd) rest

namespace Kqueue

/-- Modelled from the spec: a `kevent(2)` wait outcome only carries events
for currently registered descriptors. -/
def eventsFromSet (s : Finset Int) : WaitRes → Prop
  | WaitRes.ok evs => ∀ ev ∈ evs, goIntOfUint64 ev.ident ∈ s
  | WaitRes.fail _ => True

instance (s : Finset Int) (r : WaitRes) : Decidable (eventsFromSet s r) := by
  cases r <;> (unfold eventsFromSet; infer_instance)

/-- Modelled from the spec: every native wait call of the oracle reports
events only for currently registered descriptors. -/
def OracleFromSet (s : Finset Int) (oracle : List WaitRes) : Prop :=
  ∀ r ∈ oracle, eventsFromSet s r

instance (s : Finset Int) (oracle : List WaitRes) :
    Decidable (OracleFromSet s oracle) := by
  unfold OracleFromSet; infer_instance

end Kqueue

namespace Epoll

/-- Modelled from the spec: an `epoll_wait(2)` outcome only carries events
for currently registered descriptors. -/
def eventsFromSet (s : Finset Int) : WaitRes → Prop
  | WaitRes.ok evs => ∀ ev ∈ evs, goIntOfInt32 ev.fd ∈ s
  | WaitRes.fail _ => True

instance (s : Finset Int) (r : WaitRes) : Decidable (eventsFromSet s r) := by
  cases r <;> (unfold eventsFromSet; infer_instance)

/-- Modelled from the spec: every native wait call of the oracle reports
events only for currently registered descriptors. -/
def OracleFromSet (s : Finset Int) (oracle : List WaitRes) : Prop :=
  ∀ r ∈ oracle, eventsFromSet s r

instance (s : Finset Int) (oracle : List WaitRes) :
    Decidable (OracleFromSet s oracle) := by
  unfold OracleFromSet; infer_instance

end Epoll

/-! ## Descriptor extraction from listeners and connections (fdmom.go) -/

/-- The extracted `*os.File`, identified by its descriptor. -/
abbrev GoFile := Int

/-- A `net.Listener` or `net.Conn` value as the capability probes of
fdmom.go see it: its concrete Go type name (what `%T` prints), the result
of `NetConn()` when the `netConner` interface assertion succeeds (`none`
when it fails), and the result of `File()` when the `filer` interface
assertion succeeds (`none` when it fails). -/
inductive NetValue where
  | mk (typeName : String) (netConn : Option NetValue)
      (file : Option (Except String GoFile))

/-- The concrete type name, as `%T` prints it. -/
def NetValue.typeName : NetValue → String
  | .mk t _ _ => t

/-- The `netConner` capability: `NetConn()`'s result when present. -/
def NetValue.netConn : NetValue → Option NetValue
  | .mk _ nc _ => nc

/-- The `filer` capability: `File()`'s result when present. -/
def NetValue.file : NetValue → Option (Except String GoFile)
  | .mk _ _ f => f

/-- `ListenerFile`: probe the listener for the `filer` capability and
return `File()`'s result, or an error naming the listener's concrete
type. -/
def ListenerFile (l : NetValue) : Except String GoFile :=
  match l.file with
  | some r => r
  | none => .error ("listener " ++ l.typeName ++ " does not provide its file")

/-- `ConnFile`: first unwrap through the `netConner` capability when
present, then probe the (possibly unwrapped) connection for the `filer`
capability and return `File()`'s result, or an error naming that
connection's concrete type. -/
def ConnFile (conn : NetValue) : Except String GoFile :=
  let conn :=
    match conn.netConn with
    | some nested => nested
    | none => conn
  match conn.file with
  | some r => r
  | none =>
      .error ("connection " ++ conn.typeName ++ " does not provide its file")

/-! ## Helper lemmas -/

theorem goIntOfUint64_uintOfGoInt (x : Int) (h0 : 0 ≤ x) (h1 : x < two63) :
    goIntOfUint64 (uintOfGoInt x) = x := by
  unfold goIntOfUint64 uintOfGoInt two63 two64 at *
  omega

theorem int32ofGoInt_small (x : Int) (h0 : 0 ≤ x) (h1 : x < two31) :
    int32ofGoInt x = x := by
  unfold int32ofGoInt two31 two32 at *
  rw [if_pos] <;> omega

theorem wrapInc64_parity (x : Int) : Kqueue.wrapInc64 x % 2 = (x + 1) % 2 := by
  unfold Kqueue.wrapInc64 two63 two64
  omega

theorem epoll_awaitLoop_shape (oracle : List Epoll.WaitRes) (r : AwaitResult)
    (h : Epoll.awaitLoop oracle = some r) :
    (∃ fd, r = .ok fd) ∨ r = .error .errTimeout ∨
      ∃ e, e ≠ EINTR ∧ r = .error (.waitError e) := by
  induction oracle with
  | nil => simp [Epoll.awaitLoop] at h
  | cons hd tl ih =>
    cases hd with
    | ok evs =>
      cases evs with
      | nil =>
        simp only [Epoll.awaitLoop, Option.some.inj h]
        tauto
      | cons ev rest =>
        have : r = .ok (goIntOfInt32 ev.fd) := (Option.some.inj h).symm
        exact Or.inl ⟨_, this⟩
    | fail e =>
      by_cases he : e = EINTR
      · rw [show Epoll.awaitLoop (Epoll.WaitRes.fail e :: tl) = Epoll.awaitLoop tl
          by simp [Epoll.awaitLoop, he]] at h
        exact ih h
      · rw [show Epoll.awaitLoop (Epoll.WaitRes.fail e :: tl) =
            some (.error (.waitError e)) by simp [Epoll.awaitLoop, he]] at h
        exact Or.inr (Or.inr ⟨e, he, (Option.some.inj h).symm⟩)

theorem kqueue_awaitLoop_shape (rr : Int) (oracle : List Kqueue.WaitRes)
    (r : AwaitResult) (rr' : Int)
    (h : Kqueue.awaitLoop rr oracle = some (r, rr')) :
    (∃ fd, r = .ok fd) ∨ r = .error .errTimeout ∨ r = .error .errClosed ∨
      ∃ e, e ≠ EINTR ∧ e ≠ EBADF ∧ r = .error (.waitError e) := by
  induction oracle generalizing rr with
  | nil => simp [Kqueue.awaitLoop] at h
  | cons hd tl ih =>
    cases hd with
    | ok evs =>
      match evs with
      | [] =>
        have : (Except.error AwaitError.errTimeout, rr) = (r, rr') :=
          Option.some.inj h
        exact Or.inr (Or.inl (congrArg Prod.fst this).symm)
      | [ev] =>
        have : (Except.ok (goIntOfUint64 ev.ident), rr) = (r, rr') :=
          Option.some.inj h
        exact Or.inl ⟨_, (congrArg Prod.fst this).symm⟩
      | ev0 :: ev1 :: rest2 =>
        rw [show Kqueue.awaitLoop rr (Kqueue.WaitRes.ok (ev0 :: ev1 :: rest2) :: tl) =
            some (.ok (goIntOfUint64
                (if Kqueue.wrapInc64 rr % 2 = 0 then ev0 else ev1).ident),
              Kqueue.wrapInc64 rr) from rfl] at h
        exact Or.inl ⟨_, (congrArg Prod.fst (Option.some.inj h)).symm⟩
    | fail e =>
      by_cases hb : e = EBADF
      · rw [show Kqueue.awaitLoop rr (Kqueue.WaitRes.fail e :: tl) =
            some (.error .errClosed, rr) by simp [Kqueue.awaitLoop, hb]] at h
        exact Or.inr (Or.inr (Or.inl (congrArg Prod.fst (Option.some.inj h)).symm))
      · by_cases hi : e = EINTR
        · rw [show Kqueue.awaitLoop rr (Kqueue.WaitRes.fail e :: tl) =
              Kqueue.awaitLoop rr tl by
                subst hi; simp [Kqueue.awaitLoop, EINTR, EBADF]] at h
          exact ih rr h
        · rw [show Kqueue.awaitLoop rr (Kqueue.WaitRes.fail e :: tl) =
              some (.error (.waitError e), rr) by
                simp [Kqueue.awaitLoop, hb, hi]] at h
          exact Or.inr (Or.inr (Or.inr
            ⟨e, hi, hb, (congrArg Prod.fst (Option.some.inj h)).symm⟩))

theorem runOps_append (s : Finset Int) (l1 l2 : List Op) :
    runOps s (l1 ++ l2) = runOps (runOps s l1) l2 := by
  induction l1 generalizing s with
  | nil => rfl
  | cons o rest ih => cases o <;> simp [runOps, ih]

theorem runOps_not_mem (s : Finset Int) (ops : List Op) (fd : Int)
    (hs : fd ∉ s) (hops : ∀ o ∈ ops, o ≠ Op.includeFD fd) :
    fd ∉ runOps s ops := by
  induction ops generalizing s with
  | nil => exact hs
  | cons o rest ih =>
    have hrest : ∀ o ∈ rest, o ≠ Op.includeFD fd :=
      fun o ho => hops o (List.mem_cons_of_mem _ ho)
    cases o with
    | includeFD g =>
      have hg : g ≠ fd := by
        intro hgf
        exact hops _ (List.mem_cons_self _ _) (by rw [hgf])
      refine ih _ ?_ hrest
      rw [Finset.mem_insert]
      push_neg
      exact ⟨fun h => hg h.symm, hs⟩
    | excludeFD g =>
      refine ih _ ?_ hrest
      rw [Finset.mem_erase]
      push_neg
      exact fun _ => hs

theorem kqueue_awaitLoop_mem (s : Finset Int) (rr : Int)
    (oracle : List Kqueue.WaitRes) (fd : Int) (rr' : Int)
    (ho : Kqueue.OracleFromSet s oracle)
    (h : Kqueue.awaitLoop rr oracle = some (.ok fd, rr')) : fd ∈ s := by
  induction oracle generalizing rr with
  | nil => simp [Kqueue.awaitLoop] at h
  | cons hd tl ih =>
    have hhd : Kqueue.eventsFromSet s hd := ho hd (List.mem_cons_self _ _)
    have htl : Kqueue.OracleFromSet s tl :=
      fun x hx => ho x (List.mem_cons_of_mem _ hx)
    cases hd with
    | ok evs =>
      match evs with
      | [] =>
        have := congrArg Prod.fst (Option.some.inj h)
        simp at this
      | [ev] =>
        have := (congrArg Prod.fst (Option.some.inj h)).symm
        have hfd : fd = goIntOfUint64 ev.ident := Except.ok.inj this
        rw [hfd]
        exact hhd ev (List.mem_singleton.mpr rfl)
      | ev0 :: ev1 :: rest2 =>
        rw [show Kqueue.awaitLoop rr (Kqueue.WaitRes.ok (ev0 :: ev1 :: rest2) :: tl) =
            some (.ok (goIntOfUint64
                (if Kqueue.wrapInc64 rr % 2 = 0 then ev0 else ev1).ident),
              Kqueue.wrapInc64 rr) from rfl] at h
        have := (congrArg Prod.fst (Option.some.inj h)).symm
        have hfd : fd = goIntOfUint64
            (if Kqueue.wrapInc64 rr % 2 = 0 then ev0 else ev1).ident :=
          Except.ok.inj this
        rw [hfd]
        split
        · exact hhd ev0 (List.mem_cons_self _ _)
        · exact hhd ev1 (List.mem_cons_of_mem _ (List.mem_cons_self _ _))
    | fail e =>
      by_cases hb : e = EBADF
      · rw [show Kqueue.awaitLoop rr (Kqueue.WaitRes.fail e :: tl) =
            some (.error .errClosed, rr) by simp [Kqueue.awaitLoop, hb]] at h
        have := congrArg Prod.fst (Option.some.inj h)
        simp at this
      · by_cases hi : e = EINTR
        · rw [show Kqueue.awaitLoop rr (Kqueue.WaitRes.fail e :: tl) =
              Kqueue.awaitLoop rr tl by
                subst hi; simp [Kqueue.awaitLoop, EINTR, EBADF]] at h
          exact ih rr htl h
        · rw [show Kqueue.awaitLoop rr (Kqueue.WaitRes.fail e :: tl) =
              some (.error (.waitError e), rr) by
                simp [Kqueue.awaitLoop, hb, hi]] at h
          have := congrArg Prod.fst (Option.some.inj h)
          simp at this

theorem epoll_awaitLoop_mem (s : Finset Int) (oracle : List Epoll.WaitRes)
    (fd : Int) (ho : Epoll.OracleFromSet s oracle)
    (h : Epoll.awaitLoop oracle = some (.ok fd)) : fd ∈ s := by
  induction oracle with
  | nil => simp [Epoll.awaitLoop] at h
  | cons hd tl ih =>
    have hhd : Epoll.eventsFromSet s hd := ho hd (List.mem_cons_self _ _)
    have htl : Epoll.OracleFromSet s tl :=
      fun x hx => ho x (List.mem_cons_of_mem _ hx)
    cases hd with
    | ok evs =>
      cases evs with
      | nil =>
        have := Option.some.inj h
        simp at this
      | cons ev rest =>
        have hfd : fd = goIntOfInt32 ev.fd := Except.ok.inj (Option.some.inj h).symm
        rw [hfd]
        exact hhd ev (List.mem_cons_self _ _)
    | fail e =>
      by_cases he : e = EINTR
      · rw [show Epoll.awaitLoop (Epoll.WaitRes.fail e :: tl) = Epoll.awaitLoop tl
          by simp [Epoll.awaitLoop, he]] at h
        exact ih htl h
      · rw [show Epoll.awaitLoop (Epoll.WaitRes.fail e :: tl) =
            some (.error (.waitError e)) by simp [Epoll.awaitLoop, he]] at h
        have := Option.some.inj h
        simp at this

theorem epoll_per_retry_bound (msec : Int) (trace : List Epoll.TimedRes)
    (h0 : 0 ≤ msec) (hv : Epoll.ValidTrace msec trace) :
    Epoll.elapsedUntilReturn trace ≤
      ((Epoll.eintrCount trace : Int) + 1) * msec := by
  induction trace with
  | nil =>
    simp [Epoll.elapsedUntilReturn, Epoll.eintrCount]
    omega
  | cons r rest ih =>
    have hr := hv r (List.mem_cons_self _ _)
    have hrest : Epoll.ValidTrace msec rest :=
      fun x hx => hv x (List.mem_cons_of_mem _ hx)
    have ihr := ih hrest
    cases hres : r.res with
    | ok evs =>
      simp only [Epoll.elapsedUntilReturn, Epoll.eintrCount, hres]
      push_cast
      nlinarith [hr.1, hr.2]
    | fail e =>
      by_cases he : e = EINTR
      · simp only [Epoll.elapsedUntilReturn, Epoll.eintrCount, hres, if_pos he]
        push_cast
        nlinarith [hr.1, hr.2, ihr]
      · simp only [Epoll.elapsedUntilReturn, Epoll.eintrCount, hres, if_neg he]
        push_cast
        nlinarith [hr.1, hr.2]

theorem kqueue_per_retry_bound (tns : Int) (trace : List Kqueue.TimedRes)
    (h0 : 0 ≤ tns) (hv : Kqueue.ValidTrace tns trace) :
    Kqueue.elapsedUntilReturn trace ≤
      ((Kqueue.eintrCount trace : Int) + 1) * tns := by
  induction trace with
  | nil =>
    simp [Kqueue.elapsedUntilReturn, Kqueue.eintrCount]
    omega
  | cons r rest ih =>
    have hr := hv r (List.mem_cons_self _ _)
    have hrest : Kqueue.ValidTrace tns rest :=
      fun x hx => hv x (List.mem_cons_of_mem _ hx)
    have ihr := ih hrest
    cases hres : r.res with
    | ok evs =>
      simp only [Kqueue.elapsedUntilReturn, Kqueue.eintrCount, hres]
      push_cast
      nlinarith [hr.1, hr.2]
    | fail e =>
      by_cases he : e = EINTR
      · simp only [Kqueue.elapsedUntilReturn, Kqueue.eintrCount, hres,
          if_pos he]
        push_cast
        nlinarith [hr.1, hr.2, ihr]
      · simp only [Kqueue.elapsedUntilReturn, Kqueue.eintrCount, hres,
          if_neg he]
        push_cast
        nlinarith [hr.1, hr.2]

/-! ## Claim theorems -/

/-- C1 counterexample: at the maximum duration of 2^63 - 1 ns (within one
millisecond of `int64` overflow) the Go expression
`timeout + time.Millisecond - 1` wraps around, and the computed
millisecond count is a large negative number — which makes `epoll_wait(2)`
block indefinitely — rather than the ceiling of the timeout divided by one
millisecond, so the claimed ceiling bound fails at this positive input. -/
theorem C1_ceiling_counterexample :
    0 < (9223372036854775807 : Int) ∧
    Epoll.msecOfTimeout 9223372036854775807 = -9223372036853 ∧
    ¬ (9223372036854775807 ≤
        1000000 * Epoll.msecOfTimeout 9223372036854775807) :=
  ⟨by decide, by decide, by decide⟩

/-- C1 (amended): a negative duration makes the native wait block
indefinitely (`msec = -1` on epoll, nil timespec pointer on kqueue), zero
makes it a non-blocking poll (`msec = 0` on epoll, the zero timespec on
kqueue). A positive duration of at most 2^63 - 10^6 ns — so that
`timeout + time.Millisecond - 1` still fits an `int64` — is rounded up on
epoll, never down: the millisecond count is the ceiling of the timeout
divided by one millisecond; for the strictly larger positive durations
(within one millisecond of the `int64` maximum) the addition wraps
around and the computed millisecond count is negative, an indefinite
block. On kqueue the nanosecond-resolution timespec represents any
positive timeout exactly. -/
theorem C1_timeout_rounding (t : Int) :
    (t < 0 → Epoll.msecOfTimeout t = -1 ∧ Kqueue.timespecArg t = none) ∧
    (t = 0 → Epoll.msecOfTimeout t = 0 ∧ Kqueue.timespecArg t = some (0, 0)) ∧
    (0 < t → t ≤ two63 - 1000000 →
      1000000 * (Epoll.msecOfTimeout t - 1) < t ∧
      t ≤ 1000000 * Epoll.msecOfTimeout t) ∧
    (two63 - 1000000 < t → t < two63 → Epoll.msecOfTimeout t < 0) ∧
    (0 < t →
      ∀ sec ns, Kqueue.timespecArg t = some (sec, ns) →
        1000000000 * sec + ns = t ∧ 0 ≤ ns ∧ ns < 1000000000) := by
  refine ⟨fun h => ⟨?_, ?_⟩, fun h => ?_, fun h h2 => ?_, fun h h2 => ?_,
    fun h => ?_⟩
  · simp [Epoll.msecOfTimeout, if_pos h]
  · simp only [Kqueue.timespecArg]
    rw [if_neg]
    omega
  · subst h
    refine ⟨by decide, by decide⟩
  · unfold two63 at h2
    have ha : addInt64 (addInt64 t 1000000) (-1) = t + 999999 := by
      unfold addInt64 two63 two64
      omega
    have hmsec : Epoll.msecOfTimeout t = (t + 999999) / 1000000 := by
      simp only [Epoll.msecOfTimeout]
      rw [if_neg (by omega), ha, Int.tdiv_eq_ediv (by omega) (by omega)]
    rw [hmsec]
    omega
  · unfold two63 at h h2
    have ha : addInt64 (addInt64 t 1000000) (-1) =
        t + 999999 - 18446744073709551616 := by
      unfold addInt64 two63 two64
      omega
    have hmsec : Epoll.msecOfTimeout t =
        Int.tdiv (t + 999999 - 18446744073709551616) 1000000 := by
      simp only [Epoll.msecOfTimeout]
      rw [if_neg (by omega), ha]
    rw [hmsec,
      show t + 999999 - 18446744073709551616 =
        -(18446744073709551616 - 999999 - t) by ring,
      Int.neg_tdiv, Int.tdiv_eq_ediv (by omega) (by omega)]
    omega
  · intro sec ns heq
    simp only [Kqueue.timespecArg, Kqueue.NsecToTimespec] at heq
    rw [if_pos (by omega), Int.tdiv_eq_ediv (by omega) (by omega),
      Int.tmod_eq_emod (by omega) (by omega)] at heq
    rw [if_neg (by omega)] at heq
    have h1 : t / 1000000000 = sec ∧ t % 1000000000 = ns := by
      have := Option.some.inj heq
      exact ⟨congrArg Prod.fst this, congrArg Prod.snd this⟩
    omega

/-- C1 witness: the timeout regimes at `-1` ns, `0` ns, `1500000` ns
(1.5 ms, which rounds up to 2 ms on epoll and is exact on kqueue), and
the wrap-around regime at 2^63 - 1 ns. -/
theorem C1_timeout_rounding_witness :
    (Epoll.msecOfTimeout (-1) = -1 ∧ Kqueue.timespecArg (-1) = none) ∧
    (Epoll.msecOfTimeout 0 = 0 ∧ Kqueue.timespecArg 0 = some (0, 0)) ∧
    (1000000 * (Epoll.msecOfTimeout 1500000 - 1) < 1500000 ∧
      1500000 ≤ 1000000 * Epoll.msecOfTimeout 1500000) ∧
    Epoll.msecOfTimeout 9223372036854775807 < 0 ∧
    (∀ sec ns, Kqueue.timespecArg 1500000 = some (sec, ns) →
      1000000000 * sec + ns = 1500000 ∧ 0 ≤ ns ∧ ns < 1000000000) :=
  ⟨(C1_timeout_rounding (-1)).1 (by decide),
    (C1_timeout_rounding 0).2.1 rfl,
    (C1_timeout_rounding 1500000).2.2.1 (by decide) (by decide),
    (C1_timeout_rounding 9223372036854775807).2.2.2.1 (by decide) (by decide),
    (C1_timeout_rounding 1500000).2.2.2.2 (by decide)⟩

/-- C6: including an already-included descriptor and excluding an absent
descriptor both succeed silently: the epoll backend maps `EEXIST` from
`EPOLL_CTL_ADD` and `ENOENT` from `EPOLL_CTL_DEL` to success, and the
kqueue backend maps an `ENOENT` receipt from the `EV_DELETE` change to
success. -/
theorem C6_idempotent_membership (fd : Int) (n : Int) (receipt : Kqueue.Kevent)
    (h : uintOfGoInt receipt.data = ENOENT) :
    Epoll.IncludeFD (some EEXIST) = .ok ∧
    Epoll.ExcludeFD (some ENOENT) = .ok ∧
    Kqueue.ExcludeFD fd none n receipt = .ok := by
  refine ⟨rfl, rfl, ?_⟩
  simp only [Kqueue.ExcludeFD, Kqueue.excludeReceipt, h]
  split
  · simp
  · rfl

/-- C6 witness: redundant inclusion and exclusion at descriptor 3, with a
kqueue `EV_ERROR` receipt carrying `ENOENT`. -/
theorem C6_idempotent_membership_witness :
    Epoll.IncludeFD (some EEXIST) = .ok ∧
    Epoll.ExcludeFD (some ENOENT) = .ok ∧
    Kqueue.ExcludeFD 3 none 1 ⟨3, -1, 16384, 2⟩ = .ok :=
  C6_idempotent_membership 3 1 ⟨3, -1, 16384, 2⟩ (by decide)

/-- C7: the epoll `IncludeFD` returns `ErrWatchable` exactly when
`epoll_ctl` fails with `EPERM`; any other registration failure becomes a
generic wrapped registration error. -/
theorem C7_not_watchable (ctlErr : Option Errno) :
    (Epoll.IncludeFD ctlErr = .errWatchable ↔ ctlErr = some EPERM) ∧
    (∀ e, ctlErr = some e → e ≠ EPERM → e ≠ EEXIST →
      Epoll.IncludeFD ctlErr = .syscallError e) := by
  constructor
  · cases ctlErr with
    | none => simp [Epoll.IncludeFD]
    | some e =>
      simp only [Epoll.IncludeFD, Option.some.injEq]
      split_ifs with h1 h2 <;> simp_all [EEXIST, EPERM]
  · intro e he h1 h2
    subst he
    simp [Epoll.IncludeFD, h1, h2]

/-- C7 witness: `EPERM` yields `ErrWatchable`; `EACCES` (13) yields the
generic wrapped error. -/
theorem C7_not_watchable_witness :
    Epoll.IncludeFD (some EPERM) = .errWatchable ∧
    Epoll.IncludeFD (some 13) = .syscallError 13 :=
  ⟨(C7_not_watchable (some EPERM)).1.mpr rfl,
    (C7_not_watchable (some 13)).2 13 rfl (by decide) (by decide)⟩

/-- C9: `ConnFile` probes in a fixed order, unwrapping through the
`netConner` capability first (even when the outer value itself offers a
file) and then probing the result for the `filer` capability; when no
capability matches, the error names the concrete type, and `ListenerFile`
likewise names the listener's concrete type when it lacks the `filer`
capability. -/
theorem C9_capability_probing (t : String) (inner : NetValue)
    (fo : Option (Except String GoFile)) (nc : Option NetValue)
    (r : Except String GoFile) :
    ConnFile (NetValue.mk t (some inner) fo) =
      ConnFile (NetValue.mk inner.typeName none inner.file) ∧
    ConnFile (NetValue.mk t none (some r)) = r ∧
    ConnFile (NetValue.mk t none none) =
      .error ("connection " ++ t ++ " does not provide its file") ∧
    ListenerFile (NetValue.mk t nc (some r)) = r ∧
    ListenerFile (NetValue.mk t nc none) =
      .error ("listener " ++ t ++ " does not provide its file") := by
  refine ⟨?_, rfl, rfl, rfl, rfl⟩
  cases inner with
  | mk t2 nc2 f2 => rfl

/-- C10: the descriptor conversions on the include path and the await
return path round-trip exactly: on kqueue any non-negative descriptor
survives the `int` to `uint64` `Ident` and back conversions, and on
epoll any non-negative descriptor below 2^31 survives the `int` to
`int32` `Fd` and back conversions, so `AwaitFDWithRead` returns exactly
the descriptor whose event was registered by `IncludeFD`. -/
theorem C10_fd_round_trip (fd : Int) :
    (0 ≤ fd → fd < two63 →
      ∀ (rr : Int) (rest : List Kqueue.WaitRes),
        Kqueue.awaitLoop rr (Kqueue.WaitRes.ok [Kqueue.IncludeEvent fd] :: rest) =
          some (.ok fd, rr)) ∧
    (0 ≤ fd → fd < two31 →
      ∀ rest : List Epoll.WaitRes,
        Epoll.awaitLoop (Epoll.WaitRes.ok [Epoll.IncludeEvent fd] :: rest) =
          some (.ok fd)) := by
  constructor
  · intro h0 h1 rr rest
    simp only [Kqueue.awaitLoop, Kqueue.IncludeEvent]
    rw [goIntOfUint64_uintOfGoInt fd h0 h1]
  · intro h0 h1 rest
    simp only [Epoll.awaitLoop, Epoll.IncludeEvent, goIntOfInt32]
    rw [int32ofGoInt_small fd h0 h1]

/-- C2: when the native wait yields two simultaneously-ready events, the
kqueue `AwaitFDWithRead` returns exactly one of them and increments the
round-robin counter; the selection alternates between the two buffer
positions across successive calls (the counter's parity flips each
two-event call), and the counter is untouched by zero-event, one-event,
and error returns. The epoll backend likewise returns exactly the single
event of its one-slot buffer. -/
theorem C2_round_robin (rr : Int) (a b : Kqueue.Kevent)
    (rest rest2 : List Kqueue.WaitRes) :
    (∃ i : Fin 2, Kqueue.awaitLoop rr (Kqueue.WaitRes.ok [a, b] :: rest) =
        some (.ok (goIntOfUint64 ([a, b].get i).ident), Kqueue.wrapInc64 rr)) ∧
    (Kqueue.wrapInc64 rr % 2 = 0 →
      Kqueue.awaitLoop rr (Kqueue.WaitRes.ok [a, b] :: rest) =
          some (.ok (goIntOfUint64 a.ident), Kqueue.wrapInc64 rr) ∧
      Kqueue.awaitLoop (Kqueue.wrapInc64 rr) (Kqueue.WaitRes.ok [a, b] :: rest2) =
          some (.ok (goIntOfUint64 b.ident),
            Kqueue.wrapInc64 (Kqueue.wrapInc64 rr))) ∧
    (Kqueue.wrapInc64 rr % 2 = 1 →
      Kqueue.awaitLoop rr (Kqueue.WaitRes.ok [a, b] :: rest) =
          some (.ok (goIntOfUint64 b.ident), Kqueue.wrapInc64 rr) ∧
      Kqueue.awaitLoop (Kqueue.wrapInc64 rr) (Kqueue.WaitRes.ok [a, b] :: rest2) =
          some (.ok (goIntOfUint64 a.ident),
            Kqueue.wrapInc64 (Kqueue.wrapInc64 rr))) ∧
    Kqueue.wrapInc64 (Kqueue.wrapInc64 rr) % 2 ≠ Kqueue.wrapInc64 rr % 2 ∧
    Kqueue.awaitLoop rr (Kqueue.WaitRes.ok [a] :: rest) =
        some (.ok (goIntOfUint64 a.ident), rr) ∧
    Kqueue.awaitLoop rr (Kqueue.WaitRes.ok [] :: rest) =
        some (.error .errTimeout, rr) ∧
    (∀ (ev : Epoll.EpollEvent) (erest : List Epoll.WaitRes),
      Epoll.awaitLoop (Epoll.WaitRes.ok [ev] :: erest) =
        some (.ok (goIntOfInt32 ev.fd))) := by
  have hflip0 : ∀ x : Int, Kqueue.wrapInc64 x % 2 ≠ x % 2 := by
    intro x
    rw [wrapInc64_parity]
    omega
  have hflip : Kqueue.wrapInc64 (Kqueue.wrapInc64 rr) % 2 ≠
      Kqueue.wrapInc64 rr % 2 := hflip0 (Kqueue.wrapInc64 rr)
  have hpar : Kqueue.wrapInc64 rr % 2 = 0 ∨ Kqueue.wrapInc64 rr % 2 = 1 := by
    rw [wrapInc64_parity]
    omega
  refine ⟨?_, fun hp => ⟨?_, ?_⟩, fun hp => ⟨?_, ?_⟩, hflip, rfl, rfl,
    fun ev erest => rfl⟩
  · rcases hpar with hp | hp
    · exact ⟨0, by simp [Kqueue.awaitLoop, hp]⟩
    · exact ⟨1, by simp [Kqueue.awaitLoop, hp]⟩
  · simp [Kqueue.awaitLoop, hp]
  · have hp2 : Kqueue.wrapInc64 (Kqueue.wrapInc64 rr) % 2 = 1 := by omega
    simp [Kqueue.awaitLoop, hp2]
  · simp [Kqueue.awaitLoop, hp]
  · have hp2 : Kqueue.wrapInc64 (Kqueue.wrapInc64 rr) % 2 = 0 := by omega
    simp [Kqueue.awaitLoop, hp2]

/-- C2 witness: starting from counter 0, two successive two-event waits
return the second and then the first buffered descriptor. -/
theorem C2_round_robin_witness :
    Kqueue.awaitLoop 0 [Kqueue.WaitRes.ok [⟨3, -1, 0, 0⟩, ⟨4, -1, 0, 0⟩]] =
      some (.ok 4, Kqueue.wrapInc64 0) ∧
    Kqueue.awaitLoop (Kqueue.wrapInc64 0)
        [Kqueue.WaitRes.ok [⟨3, -1, 0, 0⟩, ⟨4, -1, 0, 0⟩]] =
      some (.ok 3, Kqueue.wrapInc64 (Kqueue.wrapInc64 0)) := by
  have h := (C2_round_robin 0 ⟨3, -1, 0, 0⟩ ⟨4, -1, 0, 0⟩ [] []).2.2.1 (by decide)
  exact ⟨h.1, h.2⟩

/-- C3: after `ExcludeFD fd` the descriptor is no longer registered, and
as long as it is not re-included, no subsequent `AwaitFDWithRead` on
either backend can return it: the wait loops only ever return descriptors
carried in native events, and (modelled from the spec) the native queue
reports events only for currently registered descriptors, exclusion also
discarding pending ones. -/
theorem C3_exclusion_is_final (s0 : Finset Int) (pre post : List Op) (fd : Int)
    (hpost : ∀ o ∈ post, o ≠ Op.includeFD fd) :
    fd ∉ runOps s0 (pre ++ Op.excludeFD fd :: post) ∧
    (∀ (rr rr' : Int) (oracle : List Kqueue.WaitRes) (fd' : Int),
        Kqueue.OracleFromSet (runOps s0 (pre ++ Op.excludeFD fd :: post)) oracle →
        Kqueue.awaitLoop rr oracle = some (.ok fd', rr') → fd' ≠ fd) ∧
    (∀ (oracle : List Epoll.WaitRes) (fd' : Int),
        Epoll.OracleFromSet (runOps s0 (pre ++ Op.excludeFD fd :: post)) oracle →
        Epoll.awaitLoop oracle = some (.ok fd') → fd' ≠ fd) := by
  have hnot : fd ∉ runOps s0 (pre ++ Op.excludeFD fd :: post) := by
    rw [runOps_append]
    show fd ∉ runOps ((runOps s0 pre).erase fd) post
    refine runOps_not_mem _ _ _ ?_ hpost
    exact Finset.not_mem_erase fd _
  refine ⟨hnot, ?_, ?_⟩
  · intro rr rr' oracle fd' ho h hEq
    rw [hEq] at h
    exact hnot (kqueue_awaitLoop_mem _ rr oracle fd rr' ho h)
  · intro oracle fd' ho h hEq
    rw [hEq] at h
    exact hnot (epoll_awaitLoop_mem _ oracle fd ho h)

/-- C3 witness: with descriptors 3 and 5 included and 5 then excluded, a
wait whose native event names descriptor 3 returns 3, not 5. -/
theorem C3_exclusion_is_final_witness :
    (5 : Int) ∉ runOps (∅ : Finset Int)
        ([Op.includeFD 3, Op.includeFD 5] ++ Op.excludeFD 5 :: []) ∧
    (3 : Int) ≠ 5 := by
  have h := C3_exclusion_is_final (∅ : Finset Int)
    [Op.includeFD 3, Op.includeFD 5] [] 5 (by decide)
  refine ⟨h.1, ?_⟩
  refine h.2.1 0 0 [Kqueue.WaitRes.ok [⟨3, -1, 0, 0⟩]] 3 ?_ ?_
  · intro r hr
    simp only [List.mem_singleton] at hr
    subst hr
    simp only [Kqueue.eventsFromSet, List.mem_singleton, forall_eq]
    rw [show goIntOfUint64 3 = (3 : Int) by decide]
    simp [runOps, Finset.mem_erase, Finset.mem_insert]
  · simp only [Kqueue.awaitLoop]
    rw [show goIntOfUint64 3 = (3 : Int) from by decide]

/-- C4 counterexample: the caller-visible timeout is not a ceiling on the
total elapsed wall-clock time across retries. A 100 ms timeout (msec =
100) with one signal interruption after 50 ms followed by a full 100 ms
timed-out wait is a valid trace of the retry loop — each native call
stays within the 100 ms it was handed — yet the loop reports `ErrTimeout`
only after 150 ms of total elapsed time, exceeding the requested 100 ms. -/
theorem C4_total_elapsed_counterexample :
    Epoll.msecOfTimeout 100000000 = 100 ∧
    Epoll.ValidTrace 100
      [⟨Epoll.WaitRes.fail EINTR, 50⟩, ⟨Epoll.WaitRes.ok [], 100⟩] ∧
    Epoll.awaitLoop [Epoll.WaitRes.fail EINTR, Epoll.WaitRes.ok []] =
      some (.error .errTimeout) ∧
    Epoll.elapsedUntilReturn
      [⟨Epoll.WaitRes.fail EINTR, 50⟩, ⟨Epoll.WaitRes.ok [], 100⟩] = 150 ∧
    Epoll.msecOfTimeout 100000000 < 150 := by
  refine ⟨by decide, by decide, rfl, rfl, by decide⟩

/-- C4 amended: on both backends the retry loop passes the original,
un-decremented timeout (`msec` on epoll, the `tsp` timespec pointer on
kqueue) to every native wait call, so the caller-visible timeout is a
per-retry budget: over any valid trace with k signal interruptions before
the deciding call, the total elapsed wall-clock time is at most
(k + 1) times the timeout in the native unit — not at most the timeout
itself. -/
theorem C4_per_retry_budget (msec tns : Int) (etrace : List Epoll.TimedRes)
    (ktrace : List Kqueue.TimedRes) (he : 0 ≤ msec) (hk : 0 ≤ tns)
    (hve : Epoll.ValidTrace msec etrace)
    (hvk : Kqueue.ValidTrace tns ktrace) :
    Epoll.elapsedUntilReturn etrace ≤
      ((Epoll.eintrCount etrace : Int) + 1) * msec ∧
    Kqueue.elapsedUntilReturn ktrace ≤
      ((Kqueue.eintrCount ktrace : Int) + 1) * tns :=
  ⟨epoll_per_retry_bound msec etrace he hve,
    kqueue_per_retry_bound tns ktrace hk hvk⟩

/-- C4 amended witness: a one-interruption trace on each backend — 50 ms
then a full 100 ms timeout on epoll, and 50 ms then a full 100 ms (in
nanoseconds) timeout on kqueue — stays within twice its budget. -/
theorem C4_per_retry_budget_witness :
    Epoll.elapsedUntilReturn
        [⟨Epoll.WaitRes.fail EINTR, 50⟩, ⟨Epoll.WaitRes.ok [], 100⟩] ≤
      ((Epoll.eintrCount
          [⟨Epoll.WaitRes.fail EINTR, 50⟩, ⟨Epoll.WaitRes.ok [], 100⟩] : Int)
        + 1) * 100 ∧
    Kqueue.elapsedUntilReturn
        [⟨Kqueue.WaitRes.fail EINTR, 50000000⟩,
          ⟨Kqueue.WaitRes.ok [], 100000000⟩] ≤
      ((Kqueue.eintrCount
          [⟨Kqueue.WaitRes.fail EINTR, 50000000⟩,
            ⟨Kqueue.WaitRes.ok [], 100000000⟩] : Int)
        + 1) * 100000000 :=
  C4_per_retry_budget 100 100000000
    [⟨Epoll.WaitRes.fail EINTR, 50⟩, ⟨Epoll.WaitRes.ok [], 100⟩]
    [⟨Kqueue.WaitRes.fail EINTR, 50000000⟩, ⟨Kqueue.WaitRes.ok [], 100000000⟩]
    (by decide) (by decide) (by decide) (by decide)

/-- C5: `AwaitFDWithRead` never surfaces `EINTR`: on both backends every
`EINTR` from the native wait call retries the loop, and every outcome the
loop returns is a descriptor, `ErrTimeout`, `ErrClosed` (kqueue only), or
a wrapped wait error whose errno is not `EINTR`. -/
theorem C5_eintr_never_surfaced :
    (∀ (oracle : List Epoll.WaitRes) (r : AwaitResult),
        Epoll.awaitLoop oracle = some r →
        (∃ fd, r = .ok fd) ∨ r = .error .errTimeout ∨
          ∃ e, e ≠ EINTR ∧ r = .error (.waitError e)) ∧
    (∀ (rr : Int) (oracle : List Kqueue.WaitRes) (r : AwaitResult) (rr' : Int),
        Kqueue.awaitLoop rr oracle = some (r, rr') →
        (∃ fd, r = .ok fd) ∨ r = .error .errTimeout ∨ r = .error .errClosed ∨
          ∃ e, e ≠ EINTR ∧ r = .error (.waitError e)) := by
  constructor
  · exact epoll_awaitLoop_shape
  · intro rr oracle r rr' h
    rcases kqueue_awaitLoop_shape rr oracle r rr' h with h1 | h1 | h1 | ⟨e, h1, h2, h3⟩
    · exact Or.inl h1
    · exact Or.inr (Or.inl h1)
    · exact Or.inr (Or.inr (Or.inl h1))
    · exact Or.inr (Or.inr (Or.inr ⟨e, h1, h3⟩))

/-- C5 witness: after one `EINTR` retry each backend reports the timeout,
an outcome that is `ErrTimeout` and in particular not an `EINTR` wait
error. -/
theorem C5_eintr_never_surfaced_witness :
    ((∃ fd, (Except.error AwaitError.errTimeout : AwaitResult) = .ok fd) ∨
      (Except.error AwaitError.errTimeout : AwaitResult) = .error .errTimeout ∨
        ∃ e, e ≠ EINTR ∧
          (Except.error AwaitError.errTimeout : AwaitResult) =
            .error (.waitError e)) ∧
    ((∃ fd, (Except.error AwaitError.errTimeout : AwaitResult) = .ok fd) ∨
      (Except.error AwaitError.errTimeout : AwaitResult) = .error .errTimeout ∨
      (Except.error AwaitError.errTimeout : AwaitResult) = .error .errClosed ∨
        ∃ e, e ≠ EINTR ∧
          (Except.error AwaitError.errTimeout : AwaitResult) =
            .error (.waitError e)) :=
  ⟨C5_eintr_never_surfaced.1
      [Epoll.WaitRes.fail EINTR, Epoll.WaitRes.ok []] _ rfl,
    C5_eintr_never_surfaced.2 0
      [Kqueue.WaitRes.fail EINTR, Kqueue.WaitRes.ok []] _ 0 rfl⟩

/-- C8: the kqueue `AwaitFDWithRead` maps `EBADF` from the native wait to
the distinct `ErrClosed` and wraps every other unexpected errno into a
generic wait error, while the epoll backend never produces `ErrClosed`
and reports an invalid handle (`EBADF`) through the generic wrapped wait
error. -/
theorem C8_closed_error_asymmetry :
    (∀ (rr : Int) (rest : List Kqueue.WaitRes),
        Kqueue.awaitLoop rr (Kqueue.WaitRes.fail EBADF :: rest) =
          some (.error .errClosed, rr)) ∧
    (∀ (rr : Int) (e : Errno) (rest : List Kqueue.WaitRes),
        e ≠ EINTR → e ≠ EBADF →
        Kqueue.awaitLoop rr (Kqueue.WaitRes.fail e :: rest) =
          some (.error (.waitError e), rr)) ∧
    (∀ (oracle : List Epoll.WaitRes) (r : AwaitResult),
        Epoll.awaitLoop oracle = some r → r ≠ .error .errClosed) ∧
    (∀ (e : Errno) (rest : List Epoll.WaitRes), e ≠ EINTR →
        Epoll.awaitLoop (Epoll.WaitRes.fail e :: rest) =
          some (.error (.waitError e))) := by
  refine ⟨?_, ?_, ?_, ?_⟩
  · intro rr rest
    simp [Kqueue.awaitLoop, EBADF]
  · intro rr e rest hi hb
    simp [Kqueue.awaitLoop, hi, hb]
  · intro oracle r h
    rcases epoll_awaitLoop_shape oracle r h with ⟨fd, h1⟩ | h1 | ⟨e, _, h1⟩ <;>
      simp [h1]
  · intro e rest he
    simp [Epoll.awaitLoop, he]

/-- C8 witness: `EBADF` yields `ErrClosed` on kqueue but the generic
wrapped wait error on epoll; errno 13 is wrapped generically on kqueue. -/
theorem C8_closed_error_asymmetry_witness :
    Kqueue.awaitLoop 0 [Kqueue.WaitRes.fail EBADF] =
      some (.error .errClosed, 0) ∧
    Kqueue.awaitLoop 0 [Kqueue.WaitRes.fail 13] =
      some (.error (.waitError 13), 0) ∧
    Epoll.awaitLoop [Epoll.WaitRes.fail EBADF] =
      some (.error (.waitError EBADF)) ∧
    (Except.error (AwaitError.waitError EBADF) : AwaitResult) ≠
      .error .errClosed := by
  refine ⟨C8_closed_error_asymmetry.1 0 [],
    C8_closed_error_asymmetry.2.1 0 13 [] (by decide) (by decide),
    C8_closed_error_asymmetry.2.2.2 EBADF [] (by decide), ?_⟩
  exact C8_closed_error_asymmetry.2.2.1 [Epoll.WaitRes.fail EBADF] _
    (C8_closed_error_asymmetry.2.2.2 EBADF [] (by decide))

/-- C10 witness: descriptor 7 round-trips through both backends. -/
theorem C10_fd_round_trip_witness :
    Kqueue.awaitLoop 0 [Kqueue.WaitRes.ok [Kqueue.IncludeEvent 7]] =
      some (.ok 7, 0) ∧
    Epoll.awaitLoop [Epoll.WaitRes.ok [Epoll.IncludeEvent 7]] = some (.ok 7) :=
  ⟨(C10_fd_round_trip 7).1 (by decide) (by decide) 0 [],
    (C10_fd_round_trip 7).2 (by decide) (by decide) []⟩

end Fdmom
